import Mathlib

/-!
Verification of the riscyOS memory-management subsystem: a shallow embedding of
the bitmap frame allocator (`memory/frames.rs`), the Sv39-style page-table
manager (`memory/paging.rs`) and the free-list kernel heap allocator
(`memory/alloc`), together with proofs and refutations of the specified
properties.  Machine integers (`u64`, `usize`) are modelled as `Nat` with
explicit `% 2 ^ 64` where wrapping matters; Rust panics (asserts, `todo!`,
out-of-bounds slicing, `Option::unwrap`) are modelled as explicit outcome
constructors.
-/

set_option maxHeartbeats 4000000
set_option maxRecDepth 100000

namespace RiscyOS

/-! ### Constants (`consts.rs`, `frames.rs`) -/

def FRAME_SIZE : Nat := 0x1000
def KIB : Nat := 1024
def BITMAP_ENTRY_BITS : Nat := 64
def BITMAP_ENTRY_SIZE_BYTES : Nat := BITMAP_ENTRY_BITS * FRAME_SIZE
def U64_MAX : Nat := 2 ^ 64 - 1

/-! ### 64-bit word helpers

`u64` values are naturals kept below `2 ^ 64`; the intrinsic bit-counting
operations of Rust are modelled by fuel-bounded structural recursions (fuel 64
covers every `u64`). -/

/-- Count trailing one bits, examining at most `fuel` bits. -/
def trailingOnesAux : Nat → Nat → Nat
  | 0, _ => 0
  | fuel + 1, w => if w % 2 = 1 then trailingOnesAux fuel (w / 2) + 1 else 0

/-- `u64::trailing_ones`. -/
def trailingOnes64 (w : Nat) : Nat := trailingOnesAux 64 w

/-- Population count, examining at most `fuel` bits. -/
def popCountAux : Nat → Nat → Nat
  | 0, _ => 0
  | fuel + 1, w => w % 2 + popCountAux fuel (w / 2)

/-- `u64::count_zeros`. -/
def countZeros64 (w : Nat) : Nat := 64 - popCountAux 64 w

/-- Binary length, examining at most `fuel` bits. -/
def bitLenAux : Nat → Nat → Nat
  | 0, _ => 0
  | fuel + 1, w => if w = 0 then 0 else bitLenAux fuel (w / 2) + 1

/-- `u64::leading_zeros`. -/
def leadingZeros64 (w : Nat) : Nat := 64 - bitLenAux 64 w

/-- Bitwise complement on 64 bits (`!w` on a `u64`). -/
def not64 (w : Nat) : Nat := w ^^^ U64_MAX

/-- 64-bit truncating left shift (`w << k` on a `u64`). -/
def shl64 (w k : Nat) : Nat := (w <<< k) % 2 ^ 64

/-- `u64::rotate_left`. -/
def rotateLeft64 (w n : Nat) : Nat :=
  ((w <<< (n % 64)) % 2 ^ 64) ||| (w >>> (64 - n % 64))

/-! ### Page-table entry codec (`paging.rs`, `PageEntry` / `PageEntryFlags`)

The `modular_bitfield` record is modelled field by field: eight one-bit flags
plus the three PPN sub-fields (9, 9 and 26 bits wide; the setters store the
already-masked values, exactly as `set_ppn` masks its argument). -/

structure PageEntry where
  valid : Bool
  read : Bool
  write : Bool
  execute : Bool
  user : Bool
  global : Bool
  accessed : Bool
  dirty : Bool
  ppn0 : Nat
  ppn1 : Nat
  ppn2 : Nat
deriving DecidableEq, Repr

/-- The all-zero entry: contents of a freshly zeroed table frame. -/
def emptyEntry : PageEntry :=
  ⟨false, false, false, false, false, false, false, false, 0, 0, 0⟩

/-- Flag constants of `PageEntryFlags` (a `u8` bit set). -/
def FLAG_VALID : Nat := 1 <<< 0
def FLAG_READ : Nat := 1 <<< 1
def FLAG_WRITE : Nat := 1 <<< 2
def FLAG_EXECUTE : Nat := 1 <<< 3
def FLAG_USER : Nat := 1 <<< 4
def FLAG_GLOBAL : Nat := 1 <<< 5
def FLAG_ACCESSED : Nat := 1 <<< 6
def FLAG_DIRTY : Nat := 1 <<< 7

/-- `PageEntryFlags::contains`: nonempty bit intersection. -/
def flagsContains (f other : Nat) : Bool := f &&& other != 0

/-- `PageEntryFlags::is_leaf`. -/
def flagsIsLeaf (f : Nat) : Bool :=
  flagsContains f FLAG_READ || flagsContains f FLAG_WRITE || flagsContains f FLAG_EXECUTE

/-- `PageEntry::set_ppn`: PPN0 = bits 12..21, PPN1 = bits 21..30, PPN2 = bits 30..56. -/
def PageEntry.setPpn (e : PageEntry) (ppn : Nat) : PageEntry :=
  { e with
    ppn0 := (ppn >>> 12) &&& 0x1ff
    ppn1 := (ppn >>> 21) &&& 0x1ff
    ppn2 := (ppn >>> 30) &&& 0x3ffffff }

/-- `PageEntry::get_ppn`. -/
def PageEntry.getPpn (e : PageEntry) : Nat :=
  (e.ppn0 <<< 12) ||| (e.ppn1 <<< 21) ||| (e.ppn2 <<< 30)

/-- `PageEntry::set_flags`. -/
def PageEntry.setFlags (e : PageEntry) (f : Nat) : PageEntry :=
  { e with
    valid := flagsContains f FLAG_VALID
    read := flagsContains f FLAG_READ
    write := flagsContains f FLAG_WRITE
    execute := flagsContains f FLAG_EXECUTE
    user := flagsContains f FLAG_USER
    global := flagsContains f FLAG_GLOBAL
    accessed := flagsContains f FLAG_ACCESSED
    dirty := flagsContains f FLAG_DIRTY }

/-- `PageEntry::is_leaf`. -/
def PageEntry.isLeaf (e : PageEntry) : Bool := e.read || e.write || e.execute

/-- `PageEntry::is_valid`. -/
def PageEntry.isValid (e : PageEntry) : Bool := e.valid

inductive PageEntryType where
  | invalid : PageEntryType
  | leaf : PageEntryType
  | branch : Nat → PageEntryType
deriving DecidableEq, Repr

/-- `PageEntry::get_type`. -/
def PageEntry.getType (e : PageEntry) : PageEntryType :=
  if !e.isValid then .invalid
  else if e.isLeaf then .leaf
  else .branch e.getPpn

/-- `PageEntry::extract_vpns`: the three 9-bit virtual page-number indices. -/
def extractVpns (va : Nat) : List Nat :=
  [(va >>> 12) &&& 0x1FF, (va >>> 21) &&& 0x1FF, (va >>> 30) &&& 0x1FF]

/-! ### Round-trip arithmetic for the PPN codec -/

theorem getPpn_setPpn (e : PageEntry) (a : Nat) (h : a < 2 ^ 56) :
    (e.setPpn a).getPpn = a >>> 12 <<< 12 := by
  show ((a >>> 12) &&& 0x1ff) <<< 12 ||| ((a >>> 21) &&& 0x1ff) <<< 21
      ||| ((a >>> 30) &&& 0x3ffffff) <<< 30 = a >>> 12 <<< 12
  have h1ff : (0x1ff : Nat) = 2 ^ 9 - 1 := by norm_num
  have h3ff : (0x3ffffff : Nat) = 2 ^ 26 - 1 := by norm_num
  rw [h1ff, h3ff, Nat.and_pow_two_sub_one_eq_mod, Nat.and_pow_two_sub_one_eq_mod,
    Nat.and_pow_two_sub_one_eq_mod]
  apply Nat.eq_of_testBit_eq
  intro j
  simp only [Nat.testBit_lor, Nat.testBit_shiftLeft, Nat.testBit_mod_two_pow,
    Nat.testBit_shiftRight]
  rcases Nat.lt_or_ge j 12 with hj | hj
  · simp [Nat.not_le.mpr hj, show ¬ (j ≥ 21) by omega, show ¬ (j ≥ 30) by omega]
  · rcases Nat.lt_or_ge j 21 with hj2 | hj2
    · simp [hj, show ¬ (j ≥ 21) by omega, show ¬ (j ≥ 30) by omega,
        show j - 12 < 9 by omega, show 12 + (j - 12) = j by omega]
    · rcases Nat.lt_or_ge j 30 with hj3 | hj3
      · simp [hj, hj2, show ¬ (j ≥ 30) by omega, show ¬ (j - 12 < 9) by omega,
          show j - 21 < 9 by omega, show 21 + (j - 21) = j by omega]
      · rcases Nat.lt_or_ge j 56 with hj4 | hj4
        · simp [hj, hj2, hj3, show ¬ (j - 12 < 9) by omega, show ¬ (j - 21 < 9) by omega,
            show j - 30 < 26 by omega, show 30 + (j - 30) = j by omega,
            show 12 + (j - 12) = j by omega]
        · have hbit : ∀ k, j ≤ k → Nat.testBit a k = false := by
            intro k hk
            exact Nat.testBit_lt_two_pow
              (lt_of_lt_of_le h (Nat.pow_le_pow_right (by norm_num) (by omega)))
          simp [hj, hj2, hj3, hbit (12 + (j - 12)) (by omega), hbit (21 + (j - 21)) (by omega),
            hbit (30 + (j - 30)) (by omega), hbit j le_rfl]

theorem shiftCancel_of_aligned (a : Nat) (h : a % 4096 = 0) : a >>> 12 <<< 12 = a := by
  rw [Nat.shiftRight_eq_div_pow, Nat.shiftLeft_eq]
  have : (2 : Nat) ^ 12 = 4096 := by norm_num
  rw [this]
  omega

/-- C10: after `set_ppn(e, a)` with `a < 2^56`, `get_ppn` returns `a` with its
low 12 bits cleared; for 4096-aligned `a` the round-trip is exact, and the
eight flag bits of `e` are untouched. -/
theorem C10_ppn_roundtrip (e : PageEntry) (a : Nat) (h : a < 2 ^ 56) :
    (e.setPpn a).getPpn = a / 4096 * 4096
    ∧ (a % 4096 = 0 → (e.setPpn a).getPpn = a)
    ∧ (e.setPpn a).valid = e.valid ∧ (e.setPpn a).read = e.read
    ∧ (e.setPpn a).write = e.write ∧ (e.setPpn a).execute = e.execute
    ∧ (e.setPpn a).user = e.user ∧ (e.setPpn a).global = e.global
    ∧ (e.setPpn a).accessed = e.accessed ∧ (e.setPpn a).dirty = e.dirty := by
  have hs : (e.setPpn a).getPpn = a >>> 12 <<< 12 := getPpn_setPpn e a h
  have hdiv : a >>> 12 <<< 12 = a / 4096 * 4096 := by
    rw [Nat.shiftRight_eq_div_pow, Nat.shiftLeft_eq]
  exact ⟨hs.trans hdiv, fun hal => hs.trans (shiftCancel_of_aligned a hal), rfl, rfl, rfl, rfl,
    rfl, rfl, rfl, rfl⟩

theorem C10_witness :
    (0x5000 : Nat) < 2 ^ 56
    ∧ ((emptyEntry.setPpn 0x5000).getPpn = 0x5000 / 4096 * 4096
      ∧ (0x5000 % 4096 = 0 → (emptyEntry.setPpn 0x5000).getPpn = 0x5000)
      ∧ (emptyEntry.setPpn 0x5000).valid = emptyEntry.valid
      ∧ (emptyEntry.setPpn 0x5000).read = emptyEntry.read
      ∧ (emptyEntry.setPpn 0x5000).write = emptyEntry.write
      ∧ (emptyEntry.setPpn 0x5000).execute = emptyEntry.execute
      ∧ (emptyEntry.setPpn 0x5000).user = emptyEntry.user
      ∧ (emptyEntry.setPpn 0x5000).global = emptyEntry.global
      ∧ (emptyEntry.setPpn 0x5000).accessed = emptyEntry.accessed
      ∧ (emptyEntry.setPpn 0x5000).dirty = emptyEntry.dirty) :=
  ⟨by norm_num, C10_ppn_roundtrip emptyEntry 0x5000 (by norm_num)⟩

/-! ### Page-table levels (`paging.rs`, `PageEntryLevel`) -/

inductive PageEntryLevel where
  | kib4 : PageEntryLevel
  | mib2 : PageEntryLevel
  | gib1 : PageEntryLevel
deriving DecidableEq, Repr

/-- `PageEntryLevel::val` (the `repr(usize)` discriminant). -/
def PageEntryLevel.val : PageEntryLevel → Nat
  | .kib4 => 0
  | .mib2 => 1
  | .gib1 => 2

/-- `PageEntryLevel::size`: `4096 * 512^level`. -/
def PageEntryLevel.size (l : PageEntryLevel) : Nat := 4096 * 512 ^ l.val

/-- `PageEntryLevel::top`. -/
def PageEntryLevel.top : PageEntryLevel := .gib1

/-- `PageEntryLevel::next_level`. -/
def PageEntryLevel.nextLevel : PageEntryLevel → Option PageEntryLevel
  | .kib4 => none
  | .mib2 => some .kib4
  | .gib1 => some .mib2

/-! ### Page tables and the table store

A `PageTable` is 512 entries in one 4096-byte frame.  The raw-pointer graph of
tables is modelled as an association list from frame addresses to tables; the
stream of frames the `FRAMES_ALLOCATOR` hands to `zero_alloc` during `map` is
the `fresh` list (each such frame is zeroed, i.e. becomes an all-empty table).
Dereferencing an address that is not a tracked table (undefined behaviour in
the Rust source) is the explicit outcome `derefFault`. -/

structure PageTable where
  entries : List PageEntry
deriving DecidableEq, Repr

/-- A freshly zero-allocated table frame. -/
def emptyTable : PageTable := ⟨List.replicate 512 emptyEntry⟩

structure PTState where
  tables : List (Nat × PageTable)
  fresh : List Nat
deriving DecidableEq, Repr

def lookupTable : List (Nat × PageTable) → Nat → Option PageTable
  | [], _ => none
  | (k, t) :: rest, a => if k = a then some t else lookupTable rest a

def updateTable : List (Nat × PageTable) → Nat → PageTable → List (Nat × PageTable)
  | [], _, _ => []
  | (k, t) :: rest, a, nt => if k = a then (k, nt) :: rest else (k, t) :: updateTable rest a nt

inductive MapOutcome where
  | ok : PTState → MapOutcome
  | panicMisaligned : MapOutcome
  | panicMapBranchFlags : MapOutcome
  | panicAlreadyMapped : MapOutcome
  | panicThroughLeaf : MapOutcome
  | panicNoSmallerPage : MapOutcome
  | allocExhausted : MapOutcome
  | derefFault : MapOutcome
  | postLoop : MapOutcome
deriving DecidableEq, Repr

/-- The traversal loop of `map`: walks `vpns` (most-significant first) from the
table at `ta`, lazily creating zeroed child tables from the `fresh` stream. -/
def mapStep : PTState → Nat → List Nat → PageEntryLevel → PageEntryLevel → Nat → Nat →
    MapOutcome
  | _, _, [], _, _, _, _ => .postLoop
  | st, ta, vpn :: rest, cur, target, pa, flags =>
    match lookupTable st.tables ta with
    | none => .derefFault
    | some tbl =>
      let entry := tbl.entries.getD vpn emptyEntry
      if cur = target then
        if entry.isValid then .panicAlreadyMapped
        else
          .ok { st with
            tables := updateTable st.tables ta
              ⟨tbl.entries.set vpn ((entry.setFlags flags).setPpn pa)⟩ }
      else
        match entry.getType with
        | .leaf => .panicThroughLeaf
        | .branch next =>
          match cur.nextLevel with
          | some lv => mapStep st next rest lv target pa flags
          | none => .panicNoSmallerPage
        | .invalid =>
          match st.fresh with
          | [] => .allocExhausted
          | s :: fr =>
            let st1 : PTState :=
              { tables := (s, emptyTable) ::
                  updateTable st.tables ta
                    ⟨tbl.entries.set vpn (({ entry with valid := true }).setPpn s)⟩
                fresh := fr }
            match cur.nextLevel with
            | some lv => mapStep st1 s rest lv target pa flags
            | none => .panicNoSmallerPage

/-- `map(root, from_addr, to_addr, entry_flags, level)`. -/
def mapCode (st : PTState) (root fromAddr toAddr flags : Nat) (level : PageEntryLevel) :
    MapOutcome :=
  if toAddr % level.size ≠ 0 then .panicMisaligned
  else if fromAddr % level.size ≠ 0 then .panicMisaligned
  else if !flagsIsLeaf flags then .panicMapBranchFlags
  else mapStep st root (extractVpns toAddr).reverse PageEntryLevel.top level fromAddr flags

inductive V2POutcome where
  | found : Nat → V2POutcome
  | notFound : V2POutcome
  | panicTodo : V2POutcome
  | panicNoSmallerPage : V2POutcome
  | derefFault : V2POutcome
deriving DecidableEq, Repr

/-- The traversal loop of `virtual_to_physical`; the `Invalid` match arm is the
source's `todo!()`. -/
def v2pStep : PTState → Nat → List Nat → PageEntryLevel → V2POutcome
  | _, _, [], _ => .notFound
  | st, ta, vpn :: rest, cur =>
    match lookupTable st.tables ta with
    | none => .derefFault
    | some tbl =>
      match (tbl.entries.getD vpn emptyEntry).getType with
      | .leaf => .found (tbl.entries.getD vpn emptyEntry).getPpn
      | .invalid => .panicTodo
      | .branch next =>
        match cur.nextLevel with
        | some lv => v2pStep st next rest lv
        | none => .panicNoSmallerPage

/-- `virtual_to_physical(root, virtual_addr)`. -/
def virtualToPhysical (st : PTState) (root va : Nat) : V2POutcome :=
  v2pStep st root (extractVpns va).reverse PageEntryLevel.top

/-- State right after `create_root_table()`: one zeroed root frame (here at
address 4096), with the frame allocator set to hand out 8192 then 12288. -/
def freshRootState : PTState := { tables := [(4096, emptyTable)], fresh := [8192, 12288] }

/-! ### List access helpers -/

theorem vpn_lt (x : Nat) : x &&& 0x1FF < 512 :=
  lt_of_le_of_lt Nat.and_le_right (by norm_num)

theorem getD_replicate_of_lt {α : Type} {n i : Nat} {a d : α} (h : i < n) :
    (List.replicate n a).getD i d = a := by
  rw [List.getD_eq_getElem?_getD, List.getElem?_replicate, if_pos h]
  rfl

theorem getD_set_self_of_lt {α : Type} {l : List α} {i : Nat} {a d : α} (h : i < l.length) :
    (l.set i a).getD i d = a := by
  rw [List.getD_eq_getElem?_getD, List.getElem?_set_self h]
  rfl

theorem getD_set_replicate {α : Type} {n i : Nat} {a d x : α} (h : i < n) :
    ((List.replicate n a).set i x).getD i d = x := by
  apply getD_set_self_of_lt
  simpa using h

/-! ### Step lemmas for `map` and `virtual_to_physical` -/

theorem mod_4096_of_mod_size (pa : Nat) (level : PageEntryLevel) (h : pa % level.size = 0) :
    pa % 4096 = 0 := by
  have hd : level.size ∣ pa := Nat.dvd_of_mod_eq_zero h
  have h4 : (4096 : Nat) ∣ level.size := ⟨512 ^ level.val, rfl⟩
  exact Nat.mod_eq_zero_of_dvd (dvd_trans h4 hd)

/-- Descending `map` through an all-empty table lazily creates a child. -/
theorem mapStep_empty_descend {st : PTState} {ta vpn : Nat} {rest : List Nat}
    {cur target nl : PageEntryLevel} {pa flags s : Nat} {fr : List Nat}
    (hvpn : vpn < 512)
    (hlook : lookupTable st.tables ta = some emptyTable)
    (hcur : cur ≠ target) (hnl : cur.nextLevel = some nl) (hfresh : st.fresh = s :: fr) :
    mapStep st ta (vpn :: rest) cur target pa flags =
      mapStep
        ⟨(s, emptyTable) ::
            updateTable st.tables ta
              ⟨(List.replicate 512 emptyEntry).set vpn
                (({ emptyEntry with valid := true }).setPpn s)⟩,
          fr⟩
        s rest nl target pa flags := by
  simp only [mapStep, hlook, emptyTable, getD_replicate_of_lt hvpn, if_neg hcur,
    show PageEntry.getType emptyEntry = .invalid from rfl, hfresh, hnl]

/-- Writing the leaf entry at the target level into an all-empty table. -/
theorem mapStep_write_leaf {st : PTState} {ta vpn : Nat} {rest : List Nat}
    {cur : PageEntryLevel} {pa flags : Nat}
    (hvpn : vpn < 512)
    (hlook : lookupTable st.tables ta = some emptyTable) :
    mapStep st ta (vpn :: rest) cur cur pa flags =
      .ok ⟨updateTable st.tables ta
            ⟨(List.replicate 512 emptyEntry).set vpn ((emptyEntry.setFlags flags).setPpn pa)⟩,
          st.fresh⟩ := by
  simp only [mapStep, hlook, emptyTable, getD_replicate_of_lt hvpn, if_pos rfl,
    show PageEntry.isValid emptyEntry = false from rfl, Bool.false_eq_true, if_false]
  exact if_pos trivial

theorem v2pStep_branch {st : PTState} {ta vpn : Nat} {rest : List Nat}
    {cur nl : PageEntryLevel} {tbl : PageTable} {nxt : Nat}
    (hlook : lookupTable st.tables ta = some tbl)
    (hty : (tbl.entries.getD vpn emptyEntry).getType = .branch nxt)
    (hnl : cur.nextLevel = some nl) :
    v2pStep st ta (vpn :: rest) cur = v2pStep st nxt rest nl := by
  simp only [v2pStep, hlook, hty, hnl]

theorem v2pStep_leaf {st : PTState} {ta vpn : Nat} {rest : List Nat}
    {cur : PageEntryLevel} {tbl : PageTable}
    (hlook : lookupTable st.tables ta = some tbl)
    (hty : (tbl.entries.getD vpn emptyEntry).getType = .leaf) :
    v2pStep st ta (vpn :: rest) cur = .found (tbl.entries.getD vpn emptyEntry).getPpn := by
  simp only [v2pStep, hlook, hty]

/-- An entry written from leaf flags that include VALID classifies as a leaf. -/
theorem leafEntry_getType (flags pa : Nat) (hleaf : flagsIsLeaf flags = true)
    (hvalid : flagsContains flags FLAG_VALID = true) :
    ((emptyEntry.setFlags flags).setPpn pa).getType = .leaf := by
  have h1 : ((emptyEntry.setFlags flags).setPpn pa).isLeaf = true := by
    simpa [PageEntry.isLeaf, PageEntry.setFlags, PageEntry.setPpn, flagsIsLeaf] using hleaf
  have h2 : ((emptyEntry.setFlags flags).setPpn pa).isValid = true := by
    simpa [PageEntry.isValid, PageEntry.setFlags, PageEntry.setPpn] using hvalid
  simp [PageEntry.getType, h1, h2]

theorem leafEntry_getPpn (flags pa : Nat) (hpa56 : pa < 2 ^ 56) (hpa4 : pa % 4096 = 0) :
    ((emptyEntry.setFlags flags).setPpn pa).getPpn = pa :=
  (getPpn_setPpn _ pa hpa56).trans (shiftCancel_of_aligned pa hpa4)

/-! ### Claims C1 and C2: map / virtual_to_physical round trip -/

/-- Extract the success state of a `map` call. -/
def mapResultState : MapOutcome → Option PTState
  | .ok st => some st
  | _ => none

/-- C2 (code bug): a translation walk that meets an EMPTY entry before any
leaf (here: an all-empty root) reaches the `todo!()` panic of the `Invalid`
match arm, instead of the non-fatal "unmapped" result that both the claim and
the function's own doc comment promise. -/
theorem C2_v2p_empty_slot_panics :
    virtualToPhysical freshRootState 4096 0 = .panicTodo
    ∧ V2POutcome.panicTodo ≠ V2POutcome.notFound :=
  ⟨by decide, by decide⟩

/-- C1 (counterexample): a `map` call whose leaf flags lack the VALID bit (as
every caller in this repository does) succeeds, yet `virtual_to_physical` on
the same address then panics at the unimplemented EMPTY path rather than
returning the mapped frame 0x4000. -/
theorem C1_counterexample :
    (mapResultState (mapCode freshRootState 4096 0x4000 0 FLAG_READ .kib4)).map
        (fun st => virtualToPhysical st 4096 0) = some .panicTodo
    ∧ some V2POutcome.panicTodo ≠ some (V2POutcome.found 0x4000) :=
  ⟨by decide, by decide⟩

theorem C1_map_v2p_roundtrip (level : PageEntryLevel) (pa va flags : Nat)
    (hpa : pa % level.size = 0) (hpa56 : pa < 2 ^ 56) (hva : va % level.size = 0)
    (hleaf : flagsIsLeaf flags = true) (hvalid : flagsContains flags FLAG_VALID = true) :
    ∃ st, mapCode freshRootState 4096 pa va flags level = .ok st
      ∧ virtualToPhysical st 4096 va = .found pa := by
  have hpa4 : pa % 4096 = 0 := mod_4096_of_mod_size pa level hpa
  have hrev : (extractVpns va).reverse =
      [(va >>> 30) &&& 0x1FF, (va >>> 21) &&& 0x1FF, (va >>> 12) &&& 0x1FF] := rfl
  have hb0 : (va >>> 12) &&& 0x1FF < 512 := vpn_lt _
  have hb1 : (va >>> 21) &&& 0x1FF < 512 := vpn_lt _
  have hb2 : (va >>> 30) &&& 0x1FF < 512 := vpn_lt _
  cases level with
  | gib1 =>
    refine ⟨⟨[(4096, ⟨(List.replicate 512 emptyEntry).set ((va >>> 30) &&& 0x1FF)
        ((emptyEntry.setFlags flags).setPpn pa)⟩)], [8192, 12288]⟩, ?_, ?_⟩
    · rw [mapCode, if_neg (by simp [hva]), if_neg (by simp [hpa]), if_neg (by simp [hleaf]), hrev]
      simp only [mapStep, freshRootState, lookupTable, updateTable, PageEntryLevel.top,
        PageEntryLevel.nextLevel, reduceIte, getD_replicate_of_lt hb2,
        show PageEntry.isValid emptyEntry = false from rfl, Bool.false_eq_true, if_false,
        show emptyTable = ⟨List.replicate 512 emptyEntry⟩ from rfl]
    · rw [virtualToPhysical, hrev]
      simp only [v2pStep, lookupTable, PageEntryLevel.top, PageEntryLevel.nextLevel, reduceIte,
        getD_set_replicate hb2, leafEntry_getType flags pa hleaf hvalid,
        leafEntry_getPpn flags pa hpa56 hpa4]
  | mib2 =>
    refine ⟨⟨[(8192, ⟨(List.replicate 512 emptyEntry).set ((va >>> 21) &&& 0x1FF)
          ((emptyEntry.setFlags flags).setPpn pa)⟩),
        (4096, ⟨(List.replicate 512 emptyEntry).set ((va >>> 30) &&& 0x1FF)
          (({ emptyEntry with valid := true }).setPpn 8192)⟩)], [12288]⟩, ?_, ?_⟩
    · rw [mapCode, if_neg (by simp [hva]), if_neg (by simp [hpa]), if_neg (by simp [hleaf]), hrev]
      simp only [mapStep, freshRootState, lookupTable, updateTable, PageEntryLevel.top,
        PageEntryLevel.nextLevel, reduceIte, getD_replicate_of_lt hb2, getD_replicate_of_lt hb1,
        show PageEntry.isValid emptyEntry = false from rfl, Bool.false_eq_true, if_false,
        show PageEntry.getType emptyEntry = PageEntryType.invalid from rfl,
        if_neg (by decide : ¬ (PageEntryLevel.gib1 = PageEntryLevel.mib2)),
        show emptyTable = ⟨List.replicate 512 emptyEntry⟩ from rfl]
    · rw [virtualToPhysical, hrev]
      simp only [v2pStep, lookupTable, PageEntryLevel.top, PageEntryLevel.nextLevel, reduceIte,
        if_neg (by decide : ¬ ((8192 : Nat) = 4096)),
        getD_set_replicate hb2, getD_set_replicate hb1,
        (by decide : (({ emptyEntry with valid := true }).setPpn 8192).getType =
          PageEntryType.branch 8192),
        leafEntry_getType flags pa hleaf hvalid, leafEntry_getPpn flags pa hpa56 hpa4]
  | kib4 =>
    refine ⟨⟨[(12288, ⟨(List.replicate 512 emptyEntry).set ((va >>> 12) &&& 0x1FF)
          ((emptyEntry.setFlags flags).setPpn pa)⟩),
        (8192, ⟨(List.replicate 512 emptyEntry).set ((va >>> 21) &&& 0x1FF)
          (({ emptyEntry with valid := true }).setPpn 12288)⟩),
        (4096, ⟨(List.replicate 512 emptyEntry).set ((va >>> 30) &&& 0x1FF)
          (({ emptyEntry with valid := true }).setPpn 8192)⟩)], []⟩, ?_, ?_⟩
    · rw [mapCode, if_neg (by simp [hva]), if_neg (by simp [hpa]), if_neg (by simp [hleaf]), hrev]
      simp only [mapStep, freshRootState, lookupTable, updateTable, PageEntryLevel.top,
        PageEntryLevel.nextLevel, reduceIte, getD_replicate_of_lt hb2, getD_replicate_of_lt hb1,
        getD_replicate_of_lt hb0,
        show PageEntry.isValid emptyEntry = false from rfl, Bool.false_eq_true, if_false,
        show PageEntry.getType emptyEntry = PageEntryType.invalid from rfl,
        if_neg (by decide : ¬ (PageEntryLevel.gib1 = PageEntryLevel.kib4)),
        if_neg (by decide : ¬ (PageEntryLevel.mib2 = PageEntryLevel.kib4)),
        show emptyTable = ⟨List.replicate 512 emptyEntry⟩ from rfl]
    · rw [virtualToPhysical, hrev]
      simp only [v2pStep, lookupTable, PageEntryLevel.top, PageEntryLevel.nextLevel, reduceIte,
        if_neg (by decide : ¬ ((12288 : Nat) = 4096)),
        if_neg (by decide : ¬ ((8192 : Nat) = 4096)),
        if_neg (by decide : ¬ ((12288 : Nat) = 8192)),
        getD_set_replicate hb2, getD_set_replicate hb1, getD_set_replicate hb0,
        (by decide : (({ emptyEntry with valid := true }).setPpn 8192).getType =
          PageEntryType.branch 8192),
        (by decide : (({ emptyEntry with valid := true }).setPpn 12288).getType =
          PageEntryType.branch 12288),
        leafEntry_getType flags pa hleaf hvalid, leafEntry_getPpn flags pa hpa56 hpa4]

theorem C1_witness :
    (0x5000 : Nat) % PageEntryLevel.kib4.size = 0 ∧ (0x5000 : Nat) < 2 ^ 56
    ∧ (0x3000 : Nat) % PageEntryLevel.kib4.size = 0
    ∧ flagsIsLeaf 3 = true ∧ flagsContains 3 FLAG_VALID = true
    ∧ ∃ st, mapCode freshRootState 4096 0x5000 0x3000 3 PageEntryLevel.kib4 = .ok st
        ∧ virtualToPhysical st 4096 0x3000 = .found 0x5000 :=
  ⟨by decide, by decide, by decide, by decide, by decide,
    C1_map_v2p_roundtrip .kib4 0x5000 0x3000 3 (by decide) (by decide) (by decide)
      (by decide) (by decide)⟩

/-! ### Bitmap frame allocator (`frames.rs`, `BitmapAllocator`)

The allocator state is the bitmap (a list of `u64` words), plus `mem_start`
and `mem_end`.  Every Rust panic site — double-free asserts, exhaustion
panics, `todo!()`, misalignment asserts, out-of-bounds slice indexing and
`Option::unwrap` — is a distinct outcome carrying the state at the moment of
the panic (mutations already performed are visible in it). -/

structure FrameState where
  bitmap : List Nat
  memStart : Nat
  memEnd : Nat
deriving DecidableEq, Repr

/-- `bitmap_entry_index_bit(address)`: (word index, bit index). -/
def FrameState.indexBit (st : FrameState) (addr : Nat) : Nat × Nat :=
  ((addr - st.memStart) / BITMAP_ENTRY_SIZE_BYTES,
   ((addr - st.memStart) / FRAME_SIZE) % BITMAP_ENTRY_BITS)

inductive PanicKind where
  | doubleFree : PanicKind
  | exhausted : PanicKind
  | unsupported : PanicKind
  | misaligned : PanicKind
  | oobSlice : PanicKind
  | unwrapFail : PanicKind
deriving DecidableEq, Repr

inductive AllocOutcome where
  | ok : Nat → FrameState → AllocOutcome
  | panic : PanicKind → FrameState → AllocOutcome
deriving DecidableEq, Repr

inductive DeallocOutcome where
  | ok : FrameState → DeallocOutcome
  | panic : PanicKind → FrameState → DeallocOutcome
deriving DecidableEq, Repr

/-- Find the first bitmap word different from `u64::MAX`, with its index. -/
def findNotFull : List Nat → Nat → Option (Nat × Nat)
  | [], _ => none
  | w :: rest, i => if w ≠ U64_MAX then some (i, w) else findNotFull rest (i + 1)

/-- `alloc_single`, `KiB4` arm. -/
def allocSingle4k (st : FrameState) : AllocOutcome :=
  match findNotFull st.bitmap 0 with
  | some (i, w) =>
    let bit := trailingOnes64 w
    let framePtr := st.memStart + i * BITMAP_ENTRY_SIZE_BYTES + bit * FRAME_SIZE
    if framePtr ≤ st.memEnd then
      .ok framePtr { st with bitmap := st.bitmap.set i (w ||| (1 <<< bit)) }
    else .panic .exhausted st
  | none => .panic .exhausted st

/-- `slice.get(s..e)`: `some` iff the range is within bounds. -/
def getRange (l : List Nat) (s e : Nat) : Option (List Nat) :=
  if s ≤ e ∧ e ≤ l.length then some ((l.drop s).take (e - s)) else none

/-- Write `u64::MAX` into the `n` words starting at `s`. -/
def setRangeMax : List Nat → Nat → Nat → List Nat
  | bm, _, 0 => bm
  | bm, s, n + 1 => setRangeMax (bm.set s U64_MAX) (s + 1) n

/-- Rust's `<*mut u8>::align_offset` for a byte pointer. -/
def alignOffset (p a : Nat) : Nat := (a - p % a) % a

inductive GroupScanResult where
  | found : Nat → GroupScanResult
  | panicOob : GroupScanResult
  | fuelOut : GroupScanResult
deriving DecidableEq, Repr

/-- The first-fit word-group scan of `alloc_contigous` (2MiB/1GiB path);
`panicOob` is the `.unwrap()` panic on an out-of-range slice.  The structural
fuel argument only counts loop iterations: every iteration advances `s` by at
least one while `s + numEntries` stays within the bitmap, so any fuel above
`bm.length + 1 - s` is never exhausted (`scanGroups_no_fuelOut`). -/
def scanGroups (fuel : Nat) (bm : List Nat) (numEntries s : Nat) : GroupScanResult :=
  match fuel with
  | 0 => .fuelOut
  | fuel + 1 =>
    match getRange bm s (s + numEntries) with
    | none => .panicOob
    | some ws =>
      if ws.any (fun w => w ≠ 0) then scanGroups fuel bm numEntries (s + numEntries)
      else .found s

theorem scanGroups_no_fuelOut (fuel : Nat) (bm : List Nat) (numEntries s : Nat)
    (h : bm.length + 1 - s < fuel) : scanGroups fuel bm numEntries s ≠ .fuelOut := by
  induction fuel generalizing s with
  | zero => omega
  | succ f ih =>
    rw [scanGroups]
    cases hG : getRange bm s (s + numEntries) with
    | none => simp
    | some ws =>
      simp only
      split
      · rename_i hA
        apply ih
        simp only [getRange] at hG
        split at hG
        · rename_i hc
          have hws : ws = (bm.drop s).take (s + numEntries - s) := by
            injection hG with hh
            exact hh.symm
          have hlen : ws.length = numEntries := by
            subst hws
            simp only [List.length_take, List.length_drop]
            omega
          have hne : ws ≠ [] := by
            intro hx
            rw [hx] at hA
            simp at hA
          have h1 : 1 ≤ numEntries := by
            rcases Nat.eq_zero_or_pos numEntries with h0 | h1
            · exact absurd (List.length_eq_zero.mp (by omega)) hne
            · exact h1
          omega
        · exact absurd hG (by simp)
      · simp

/-- `alloc_contigous` for the 2MiB/1GiB size classes.  The `fuelOut` arm is
unreachable at the fuel passed here, by `scanGroups_no_fuelOut`. -/
def allocContigousBig (st : FrameState) (numFrames : Nat) (level : PageEntryLevel) :
    AllocOutcome :=
  let numEntries := max (level.size / FRAME_SIZE * numFrames / BITMAP_ENTRY_BITS) 1
  let startIndex := alignOffset st.memStart level.size / (BITMAP_ENTRY_BITS * KIB)
  match scanGroups (st.bitmap.length + 2) st.bitmap numEntries startIndex with
  | .panicOob => .panic .unwrapFail st
  | .fuelOut => .panic .unwrapFail st
  | .found s =>
    let bm := setRangeMax st.bitmap s numEntries
    let pagePtr := st.memStart + s * BITMAP_ENTRY_SIZE_BYTES
    if pagePtr % level.size = 0 then .ok pagePtr { st with bitmap := bm }
    else .panic .misaligned { st with bitmap := bm }

/-- Find the first all-zero bitmap word (the whole-word case of the sub-64
path). -/
def findEmptyWord : List Nat → Nat → Option Nat
  | [], _ => none
  | w :: rest, i => if w = 0 then some i else findEmptyWord rest (i + 1)

/-- First bit offset whose `n`-bit window in `w` is entirely free, searched
over the exclusive range `0..(64 - n)` exactly as in the source. -/
def findWindow (w mask n : Nat) : Option Nat :=
  (List.range (BITMAP_ENTRY_BITS - n)).find? (fun i => (w >>> i) ||| mask = mask)

/-- The filtered scan of `intra_alloc_contigous_4k_frames`: words with at
least `n` free bits are tried for a window. -/
def intraFind (bm : List Nat) (i mask n : Nat) : Option (Nat × Nat) :=
  match bm with
  | [] => none
  | w :: rest =>
    if countZeros64 w ≥ n then
      match findWindow w mask n with
      | some b => some (i, b)
      | none => intraFind rest (i + 1) mask n
    else intraFind rest (i + 1) mask n

/-- `intra_alloc_contigous_4k_frames` (64 or fewer frames). -/
def intraAlloc4k (st : FrameState) (numFrames : Nat) : AllocOutcome :=
  if numFrames = BITMAP_ENTRY_BITS then
    match findEmptyWord st.bitmap 0 with
    | none => .panic .unwrapFail st
    | some i =>
      let bm := st.bitmap.set i U64_MAX
      let pagePtr := st.memStart + i * BITMAP_ENTRY_SIZE_BYTES
      if pagePtr < st.memEnd then .ok pagePtr { st with bitmap := bm }
      else .panic .exhausted { st with bitmap := bm }
  else
    let mask := shl64 U64_MAX numFrames
    match intraFind st.bitmap 0 mask numFrames with
    | some (i, b) =>
      let w := st.bitmap.getD i 0
      let bm := st.bitmap.set i (w ||| rotateLeft64 (not64 mask) b)
      let pagePtr := st.memStart + i * BITMAP_ENTRY_SIZE_BYTES + b * FRAME_SIZE
      if pagePtr < st.memEnd then .ok pagePtr { st with bitmap := bm }
      else .panic .exhausted { st with bitmap := bm }
    | none => .panic .exhausted st

inductive InterScanResult where
  | found : Nat → InterScanResult
  | panicOob : InterScanResult
  | exhausted : InterScanResult
  | fuelOut : InterScanResult
deriving DecidableEq, Repr

/-- The search loop of `inter_alloc_contigous_4k_frames`: a candidate at word
`s` needs `entries` fully-free words and, when `rem ≠ 0`, at least `rem`
leading zero bits in the following word; the two failure modes advance the
window differently (`s + entries` versus `s + (s + entries) + 1`).  The
structural fuel only counts loop iterations: every iteration advances `s`
while the loop condition keeps `s` below `memEnd`, so any fuel above
`memEnd - s` is never exhausted (`interScan_no_fuelOut`). -/
def interScan (fuel : Nat) (bm : List Nat) (entries rem memStart memEnd s : Nat) :
    InterScanResult :=
  match fuel with
  | 0 => .fuelOut
  | fuel + 1 =>
    if memStart + s < memEnd - entries - 1 then
      match getRange bm s (s + entries) with
      | none => .panicOob
      | some ws =>
        if ws.any (fun w => w ≠ 0) then
          interScan fuel bm entries rem memStart memEnd (s + entries)
        else if rem ≠ 0 then
          match bm[s + entries]? with
          | none => .panicOob
          | some nw =>
            if leadingZeros64 nw < rem then
              interScan fuel bm entries rem memStart memEnd (s + (s + entries) + 1)
            else .found s
        else .found s
    else .exhausted

theorem interScan_no_fuelOut (fuel : Nat) (bm : List Nat) (entries rem memStart memEnd s : Nat)
    (h : memEnd - s < fuel) :
    interScan fuel bm entries rem memStart memEnd s ≠ .fuelOut := by
  induction fuel generalizing s with
  | zero => omega
  | succ f ih =>
    rw [interScan]
    split
    · rename_i hcond
      cases hG : getRange bm s (s + entries) with
      | none => simp
      | some ws =>
        simp only
        split
        · rename_i hA
          apply ih
          simp only [getRange] at hG
          split at hG
          · rename_i hc
            have hws : ws = (bm.drop s).take (s + entries - s) := by
              injection hG with hh
              exact hh.symm
            have hlen : ws.length = entries := by
              subst hws
              simp only [List.length_take, List.length_drop]
              omega
            have hne : ws ≠ [] := by
              intro hx
              rw [hx] at hA
              simp at hA
            have h1 : 1 ≤ entries := by
              rcases Nat.eq_zero_or_pos entries with h0 | h1
              · exact absurd (List.length_eq_zero.mp (by omega)) hne
              · exact h1
            omega
          · exact absurd hG (by simp)
        · split
          · cases hB : bm[s + entries]? with
            | none => simp
            | some nw =>
              simp only
              split
              · apply ih
                omega
              · simp
          · simp
    · simp

/-- `inter_alloc_contigous_4k_frames` (more than 64 frames).  The `fuelOut`
arm is unreachable at the fuel passed here, by `interScan_no_fuelOut`. -/
def interAlloc4k (st : FrameState) (numFrames : Nat) : AllocOutcome :=
  let entries := numFrames / BITMAP_ENTRY_BITS
  let rem := numFrames % BITMAP_ENTRY_BITS
  match interScan (st.memEnd + 1) st.bitmap entries rem st.memStart st.memEnd 0 with
  | .panicOob => .panic .unwrapFail st
  | .exhausted => .panic .exhausted st
  | .fuelOut => .panic .unwrapFail st
  | .found s =>
    let pagePtr := st.memStart + s * BITMAP_ENTRY_SIZE_BYTES
    if pagePtr < st.memEnd then
      let bm1 := setRangeMax st.bitmap s entries
      let bm2 :=
        if rem > 0 then bm1.set (s + entries) (bm1.getD (s + entries) 0 ||| not64 (shl64 U64_MAX rem))
        else bm1
      .ok pagePtr { st with bitmap := bm2 }
    else .panic .exhausted st

/-- `alloc_contigous`. -/
def allocContigous (st : FrameState) (numFrames : Nat) (level : PageEntryLevel) :
    AllocOutcome :=
  match level with
  | .kib4 =>
    if numFrames ≤ BITMAP_ENTRY_BITS then intraAlloc4k st numFrames
    else interAlloc4k st numFrames
  | _ => allocContigousBig st numFrames level

/-- `alloc_single`. -/
def allocSingle (st : FrameState) (level : PageEntryLevel) : AllocOutcome :=
  match level with
  | .kib4 => allocSingle4k st
  | .mib2 => allocContigous st 1 .mib2
  | .gib1 => .panic .unsupported st

/-- `alloc(num_frames, level)`. -/
def allocCode (st : FrameState) (numFrames : Nat) (level : PageEntryLevel) : AllocOutcome :=
  if numFrames = 1 then allocSingle st level else allocContigous st numFrames level

/-- The assert-then-clear loop shared by the multi-word dealloc paths: each
word must be `u64::MAX` before it is zeroed; words already cleared stay
cleared when the assert fires later. -/
def deallocWords (st : FrameState) (i : Nat) : Nat → DeallocOutcome
  | 0 => .ok st
  | c + 1 =>
    match st.bitmap[i]? with
    | none => .panic .oobSlice st
    | some w =>
      if w = U64_MAX then deallocWords { st with bitmap := st.bitmap.set i 0 } (i + 1) c
      else .panic .doubleFree st

/-- `dealloc_single`. -/
def deallocSingle (st : FrameState) (addr : Nat) (level : PageEntryLevel) : DeallocOutcome :=
  match level with
  | .kib4 =>
    let ib := st.indexBit addr
    match st.bitmap[ib.1]? with
    | none => .panic .oobSlice st
    | some w =>
      if (w >>> ib.2) &&& 1 ≠ 1 then .panic .doubleFree st
      else .ok { st with bitmap := st.bitmap.set ib.1 (w &&& not64 (1 <<< ib.2)) }
  | .mib2 =>
    let ib := st.indexBit addr
    if ib.1 ≤ st.bitmap.length ∧ 512 ≤ st.bitmap.length - ib.1 then deallocWords st ib.1 512
    else .panic .oobSlice st
  | .gib1 => .panic .unsupported st

/-- `dealloc_contigous`. -/
def deallocContigous (st : FrameState) (addr size : Nat) (level : PageEntryLevel) :
    DeallocOutcome :=
  let ib := st.indexBit addr
  match level with
  | .kib4 =>
    if size < BITMAP_ENTRY_BITS then
      match st.bitmap[ib.1]? with
      | none => .panic .oobSlice st
      | some w =>
        .ok { st with
          bitmap := st.bitmap.set ib.1 (w &&& rotateLeft64 (shl64 U64_MAX size) ib.2) }
    else if size = BITMAP_ENTRY_BITS then
      if ib.1 < st.bitmap.length then .ok { st with bitmap := st.bitmap.set ib.1 0 }
      else .panic .oobSlice st
    else
      let entries := size / BITMAP_ENTRY_BITS
      let rem := size % BITMAP_ENTRY_BITS
      if ib.1 + entries ≤ st.bitmap.length then
        match deallocWords st ib.1 entries with
        | .ok st1 =>
          if rem > 0 then
            match st1.bitmap[ib.1 + entries]? with
            | none => .panic .oobSlice st1
            | some w =>
              .ok { st1 with
                bitmap := st1.bitmap.set (ib.1 + entries) (w &&& shl64 U64_MAX rem) }
          else .ok st1
        | .panic k st1 => .panic k st1
      else .panic .oobSlice st
  | _ =>
    let numEntries := max (level.size / FRAME_SIZE * size / 64) 1
    let endIndex := ib.1 + numEntries
    if ib.1 ≤ st.bitmap.length ∧ endIndex ≤ st.bitmap.length - ib.1 then
      deallocWords st ib.1 endIndex
    else .panic .oobSlice st

/-- `dealloc(address, size, level)`. -/
def deallocCode (st : FrameState) (addr size : Nat) (level : PageEntryLevel) : DeallocOutcome :=
  if size = 1 then deallocSingle st addr level else deallocContigous st addr size level

/-- `set_used`. -/
def setUsed (st : FrameState) (addr : Nat) : FrameState :=
  { st with
    bitmap := st.bitmap.set (st.indexBit addr).1
      (st.bitmap.getD (st.indexBit addr).1 0 ||| (1 <<< (st.indexBit addr).2)) }

/-- The marking loop at the end of `init` (`for frame in 0..count`). -/
def markFrames (st : FrameState) : Nat → FrameState
  | 0 => st
  | n + 1 => setUsed (markFrames st n) (st.memStart + n * FRAME_SIZE)

/-- `init(start, end)`: sizes the bitmap, zeroes it, then marks
`size / FRAME_SIZE + 1` frames used (`size` being the bitmap's length in
64-bit words). -/
def initFrames (start endAddr : Nat) : FrameState :=
  let numFrames := (endAddr - start) / FRAME_SIZE
  let size := numFrames / BITMAP_ENTRY_BITS + 1
  markFrames { bitmap := List.replicate size 0, memStart := start, memEnd := endAddr }
    (size / FRAME_SIZE + 1)

/-! ### Claims C3, C4, C5, C7: allocator round trips and failure behaviour -/

/-- C3 (code bug): over a fully free 16-word bitmap (a 4 MiB region at
address 0), `alloc(1, 2MiB)` succeeds at address 0 after marking eight words
used, but `dealloc(0, 1, 2MiB)` then panics — its loop insists on walking 512
bitmap words (`[index..][..512]`) although the allocation spans eight — so the
round trip does not restore the bitmap. -/
theorem C3_alloc_dealloc_2mib_fails :
    allocCode ⟨List.replicate 16 0, 0, 16 * 262144⟩ 1 .mib2 =
      .ok 0 ⟨List.replicate 8 U64_MAX ++ List.replicate 8 0, 0, 16 * 262144⟩
    ∧ deallocCode ⟨List.replicate 8 U64_MAX ++ List.replicate 8 0, 0, 16 * 262144⟩ 0 1 .mib2 =
      .panic .oobSlice ⟨List.replicate 8 U64_MAX ++ List.replicate 8 0, 0, 16 * 262144⟩ :=
  ⟨by decide, by decide⟩

/-- C4 (counterexample): `dealloc(0, 128, 4KiB)` on a bitmap whose first word
is fully used and second word fully free reports DoubleFree, but only after
zeroing the first word — the failed call leaves the bitmap mutated. -/
theorem C4_counterexample :
    deallocCode ⟨[U64_MAX, 0], 0, 524288⟩ 0 128 .kib4 =
      .panic .doubleFree ⟨[0, 0], 0, 524288⟩
    ∧ ([0, 0] : List Nat) ≠ [U64_MAX, 0] :=
  ⟨by decide, by decide⟩

/-- C5 (counterexample): `alloc(2, 4KiB)` then `dealloc(0, 2, 4KiB)` twice —
the second dealloc returns normally (the sub-word path clears bits with a
mask and never checks them), so no DoubleFree is reported. -/
theorem C5_counterexample :
    allocCode ⟨[0], 0, 262144⟩ 2 .kib4 = .ok 0 ⟨[3], 0, 262144⟩
    ∧ deallocCode ⟨[3], 0, 262144⟩ 0 2 .kib4 = .ok ⟨[0], 0, 262144⟩
    ∧ deallocCode ⟨[0], 0, 262144⟩ 0 2 .kib4 = .ok ⟨[0], 0, 262144⟩ :=
  ⟨by decide, by decide, by decide⟩

/-- C7 (code bug): `init(0, 0x8000000)` (a 128 MiB region) builds a bitmap of
513 words = 4104 bytes, which occupies two 4096-byte frames; but the marking
loop runs for `size / FRAME_SIZE + 1` iterations with `size` measured in
words, so only frame 0 is marked used (word 0 becomes 1) and the bitmap's own
second frame is left allocatable. -/
theorem C7_init_marks_too_few_frames :
    (initFrames 0 0x8000000).bitmap.length = 513
    ∧ 8 * (initFrames 0 0x8000000).bitmap.length = 4104
    ∧ 4096 < 4104
    ∧ (initFrames 0 0x8000000).bitmap.getD 0 0 = 1
    ∧ Nat.testBit ((initFrames 0 0x8000000).bitmap.getD 0 0) 1 = false :=
  ⟨by decide, by decide, by decide, by decide, by decide⟩

/-! ### Claim C8: the coarse first-fit search of the >64-frame path -/

/-- Modelled from the spec: the search C8 describes — the same candidate test
as `inter_alloc_contigous_4k_frames`, but with the window advancing by the
run length (the run's word count) after every failed candidate.  Fuel-bounded
like `interScan`. -/
def claimInterScan (fuel : Nat) (bm : List Nat) (entries rem memStart memEnd s : Nat) :
    InterScanResult :=
  match fuel with
  | 0 => .fuelOut
  | fuel + 1 =>
    if memStart + s < memEnd - entries - 1 then
      match getRange bm s (s + entries) with
      | none => .panicOob
      | some ws =>
        if ws.any (fun w => w ≠ 0) then
          claimInterScan fuel bm entries rem memStart memEnd (s + entries)
        else if rem ≠ 0 then
          match bm[s + entries]? with
          | none => .panicOob
          | some nw =>
            if leadingZeros64 nw < rem then
              claimInterScan fuel bm entries rem memStart memEnd (s + entries)
            else .found s
        else .found s
    else .exhausted

/-- C8 (counterexample): for `count = 65` over the bitmap
`[1, 0, 2^63, 0, 0, 0]`, the run-length-advance search the claim describes
accepts word 3, but the code — whose leading-bits failure advances the window
to `start + (start + run) + 1` — skips word 3 and allocates at word 4
(address 1048576 = 4 · 262144 rather than 786432 = 3 · 262144). -/
theorem C8_counterexample :
    interAlloc4k ⟨[1, 0, 2 ^ 63, 0, 0, 0], 0, 1572864⟩ 65 =
      .ok 1048576 ⟨[1, 0, 2 ^ 63, 0, U64_MAX, 1], 0, 1572864⟩
    ∧ claimInterScan 100 [1, 0, 2 ^ 63, 0, 0, 0] 1 1 0 1572864 0 = .found 3
    ∧ interScan 1572865 [1, 0, 2 ^ 63, 0, 0, 0] 1 1 0 1572864 0 = .found 4
    ∧ (1048576 : Nat) ≠ 3 * BITMAP_ENTRY_SIZE_BYTES :=
  ⟨by decide, by decide, by decide, by decide⟩

theorem indexBit_set_bitmap (st : FrameState) (bm : List Nat) (addr : Nat) :
    ({ st with bitmap := bm } : FrameState).indexBit addr = st.indexBit addr := rfl

/-- C4 (amended): fatal reports that fire before the call's first bitmap
mutation leave the bitmap untouched — the single-4KiB-frame DoubleFree check,
single-4KiB-frame exhaustion, and the unsupported 1GiB single-frame
operations all return the state unchanged. -/
theorem C4_no_mutation_on_failure :
    (∀ st addr k st', deallocCode st addr 1 .kib4 = .panic k st' → st' = st)
    ∧ (∀ st k st', allocCode st 1 .kib4 = .panic k st' → st' = st)
    ∧ (∀ st k st', allocCode st 1 .gib1 = .panic k st' → st' = st)
    ∧ (∀ st addr k st', deallocCode st addr 1 .gib1 = .panic k st' → st' = st) := by
  refine ⟨?_, ?_, ?_, ?_⟩
  · intro st addr k st' h
    rw [deallocCode, if_pos rfl] at h
    simp only [deallocSingle] at h
    split at h
    · injection h with h1 h2
      exact h2.symm
    · split at h
      · injection h with h1 h2
        exact h2.symm
      · simp at h
  · intro st k st' h
    rw [allocCode, if_pos rfl] at h
    simp only [allocSingle, allocSingle4k] at h
    split at h
    · split at h
      · simp at h
      · injection h with h1 h2
        exact h2.symm
    · injection h with h1 h2
      exact h2.symm
  · intro st k st' h
    rw [allocCode, if_pos rfl] at h
    simp only [allocSingle] at h
    injection h with h1 h2
    exact h2.symm
  · intro st addr k st' h
    rw [deallocCode, if_pos rfl] at h
    simp only [deallocSingle] at h
    injection h with h1 h2
    exact h2.symm

theorem C4_witness :
    deallocCode ⟨[0], 0, 262144⟩ 0 1 .kib4 = .panic .doubleFree ⟨[0], 0, 262144⟩
    ∧ (⟨[0], 0, 262144⟩ : FrameState) = ⟨[0], 0, 262144⟩ :=
  ⟨by decide,
    C4_no_mutation_on_failure.1 ⟨[0], 0, 262144⟩ 0 .doubleFree ⟨[0], 0, 262144⟩ (by decide)⟩

theorem deallocWords_preserves (c : Nat) (st : FrameState) (i : Nat) (st' : FrameState)
    (h : deallocWords st i c = .ok st') :
    st'.bitmap.length = st.bitmap.length ∧ st'.memStart = st.memStart
      ∧ st'.memEnd = st.memEnd := by
  induction c generalizing st i with
  | zero =>
    simp only [deallocWords] at h
    injection h with h1
    subst h1
    exact ⟨rfl, rfl, rfl⟩
  | succ c ih =>
    simp only [deallocWords] at h
    split at h
    · simp at h
    · split at h
      · have := ih _ (i + 1) h
        simpa using this
      · simp at h

theorem deallocWords_lower (c : Nat) (st : FrameState) (i j : Nat) (st' : FrameState)
    (h : deallocWords st i c = .ok st') (hj : j < i) :
    st'.bitmap[j]? = st.bitmap[j]? := by
  induction c generalizing st i with
  | zero =>
    simp only [deallocWords] at h
    injection h with h1
    subst h1
    rfl
  | succ c ih =>
    simp only [deallocWords] at h
    split at h
    · simp at h
    · split at h
      · have hr := ih _ (i + 1) h (by omega)
        rw [hr]
        exact List.getElem?_set_ne (by omega)
      · simp at h

theorem deallocWords_first (c : Nat) (st : FrameState) (i : Nat) (st' : FrameState)
    (hc : 1 ≤ c) (h : deallocWords st i c = .ok st') : st'.bitmap[i]? = some 0 := by
  cases c with
  | zero => omega
  | succ c =>
    simp only [deallocWords] at h
    split at h
    · simp at h
    · rename_i w hw
      split at h
      · have hlow := deallocWords_lower c _ (i + 1) i st' h (Nat.lt_succ_self i)
        rw [hlow]
        have hi : i < st.bitmap.length := by
          rcases List.getElem?_eq_some.mp hw with ⟨hlt, _⟩
          exact hlt
        exact List.getElem?_set_self hi
      · simp at h

theorem deallocWords_panic_first (c : Nat) (st : FrameState) (i : Nat) (hc : 1 ≤ c)
    (h0 : st.bitmap[i]? = some 0) :
    deallocWords st i c = .panic .doubleFree st := by
  cases c with
  | zero => omega
  | succ c =>
    simp only [deallocWords, h0]
    rw [if_neg (by decide)]

theorem cleared_bit_not_one (w b : Nat) (hb : b < 64) :
    ¬ (((w &&& not64 (1 <<< b)) >>> b) &&& 1 = 1) := by
  have ht : Nat.testBit (w &&& not64 (1 <<< b)) b = false := by
    rw [Nat.testBit_land]
    have h2 : Nat.testBit (not64 (1 <<< b)) b = false := by
      rw [not64, Nat.testBit_xor]
      have e1 : Nat.testBit (1 <<< b) b = true := by
        rw [Nat.testBit_shiftLeft]
        simp
      have e2 : Nat.testBit U64_MAX b = true := by
        rw [show U64_MAX = 2 ^ 64 - 1 from rfl, Nat.testBit_two_pow_sub_one]
        simp [hb]
      rw [e1, e2]
      rfl
    rw [h2, Bool.and_false]
  rw [Nat.and_one_is_mod, Nat.shiftRight_eq_div_pow]
  rw [Nat.testBit_to_div_mod] at ht
  simpa using ht

/-- C5 (amended): after a successful dealloc, a second identical dealloc
reports DoubleFree on every path that checks — n = 1 at 4KiB and 2MiB, 4KiB
with n > 64, and the contiguous 2MiB/1GiB path — i.e. for everything outside
the unchecked 4KiB sub-word path (n = 0 or 2 ≤ n ≤ 64) and the unsupported
1GiB single-frame case. -/
theorem C5_double_free_detected (st : FrameState) (addr n : Nat) (level : PageEntryLevel)
    (st' : FrameState)
    (hexc1 : ¬ (level = .kib4 ∧ n ≠ 1 ∧ n ≤ 64))
    (hexc2 : ¬ (level = .gib1 ∧ n = 1))
    (hok : deallocCode st addr n level = .ok st') :
    ∃ st'', deallocCode st' addr n level = .panic .doubleFree st'' := by
  by_cases hn : n = 1
  · subst hn
    rw [deallocCode, if_pos rfl] at hok
    rw [deallocCode, if_pos rfl]
    cases level with
    | gib1 => simp [deallocSingle] at hok
    | kib4 =>
      simp only [deallocSingle] at hok
      split at hok
      · simp at hok
      · rename_i w hw
        split at hok
        · simp at hok
        · rename_i hbit
          injection hok with hok1
          have hi : (st.indexBit addr).1 < st.bitmap.length := (List.getElem?_eq_some.mp hw).1
          refine ⟨st', ?_⟩
          simp only [deallocSingle, ← hok1, indexBit_set_bitmap]
          simp only [List.getElem?_set_self hi]
          have hb : (st.indexBit addr).2 < 64 := by
            simp only [FrameState.indexBit, BITMAP_ENTRY_BITS]
            omega
          rw [if_pos (cleared_bit_not_one w (st.indexBit addr).2 hb)]
      | mib2 =>
        simp only [deallocSingle] at hok ⊢
        split at hok
        · rename_i hbound
          have hpres := deallocWords_preserves 512 st _ st' hok
          have hfirst := deallocWords_first 512 st _ st' (by omega) hok
          refine ⟨st', ?_⟩
          have hib : st'.indexBit addr = st.indexBit addr := by
            unfold FrameState.indexBit
            rw [hpres.2.1]
          rw [hib, hpres.1, if_pos hbound]
          exact deallocWords_panic_first 512 st' _ (by omega) hfirst
        · simp at hok
  · rw [deallocCode, if_neg hn] at hok
    rw [deallocCode, if_neg hn]
    cases level with
    | gib1 =>
      simp only [deallocContigous] at hok ⊢
      split at hok
      · rename_i hbound
        have hone : 1 ≤ (st.indexBit addr).1 + max (PageEntryLevel.gib1.size / FRAME_SIZE * n / 64) 1 :=
          le_trans (le_max_right _ 1) (Nat.le_add_left _ _)
        have hpres := deallocWords_preserves _ st _ st' hok
        have hfirst := deallocWords_first _ st _ st' hone hok
        refine ⟨st', ?_⟩
        have hib : st'.indexBit addr = st.indexBit addr := by
          unfold FrameState.indexBit
          rw [hpres.2.1]
        rw [hib, hpres.1, if_pos hbound]
        exact deallocWords_panic_first _ st' _ hone hfirst
      · simp at hok
    | mib2 =>
      simp only [deallocContigous] at hok ⊢
      split at hok
      · rename_i hbound
        have hone : 1 ≤ (st.indexBit addr).1 + max (PageEntryLevel.mib2.size / FRAME_SIZE * n / 64) 1 :=
          le_trans (le_max_right _ 1) (Nat.le_add_left _ _)
        have hpres := deallocWords_preserves _ st _ st' hok
        have hfirst := deallocWords_first _ st _ st' hone hok
        refine ⟨st', ?_⟩
        have hib : st'.indexBit addr = st.indexBit addr := by
          unfold FrameState.indexBit
          rw [hpres.2.1]
        rw [hib, hpres.1, if_pos hbound]
        exact deallocWords_panic_first _ st' _ hone hfirst
      · simp at hok
    | kib4 =>
      have h65 : 65 ≤ n := by
        rcases Nat.lt_or_ge 64 n with h | h
        · omega
        · exact absurd ⟨rfl, hn, h⟩ hexc1
      simp only [deallocContigous, BITMAP_ENTRY_BITS] at hok ⊢
      rw [if_neg (by omega), if_neg (by omega)] at hok
      rw [if_neg (by omega), if_neg (by omega)]
      have hent : 1 ≤ n / 64 := by omega
      split at hok
      · rename_i hbound
        split at hok
        · rename_i st1 hdw
          have hpres1 := deallocWords_preserves _ st _ st1 hdw
          have hfirst1 := deallocWords_first _ st _ st1 hent hdw
          have hfacts : st'.bitmap[(st.indexBit addr).1]? = some 0
              ∧ st'.bitmap.length = st.bitmap.length ∧ st'.memStart = st.memStart := by
            split at hok
            · split at hok
              · simp at hok
              · rename_i w hw
                injection hok with hok1
                rw [← hok1]
                refine ⟨?_, ?_, ?_⟩
                · simp only
                  rw [List.getElem?_set_ne (by omega)]
                  exact hfirst1
                · simp only [List.length_set]
                  exact hpres1.1
                · exact hpres1.2.1
            · injection hok with hok1
              rw [← hok1]
              exact ⟨hfirst1, hpres1.1, hpres1.2.1⟩
          refine ⟨st', ?_⟩
          have hib : st'.indexBit addr = st.indexBit addr := by
            unfold FrameState.indexBit
            rw [hfacts.2.2]
          rw [hib, hfacts.2.1, if_pos hbound]
          rw [deallocWords_panic_first _ st' _ hent hfacts.1]
        · simp at hok
      · simp at hok

theorem C5_witness :
    deallocCode ⟨[1], 0, 262144⟩ 0 1 .kib4 = .ok ⟨[0], 0, 262144⟩
    ∧ ∃ st'', deallocCode ⟨[0], 0, 262144⟩ 0 1 .kib4 = .panic .doubleFree st'' :=
  ⟨by decide,
    C5_double_free_detected ⟨[1], 0, 262144⟩ 0 1 .kib4 ⟨[0], 0, 262144⟩
      (by decide) (by decide) (by decide)⟩

/-- C8 (amended): what the >64-frame search actually does.  A returned
candidate `s` always passed both tests (its `entries` words are entirely
free, and when `rem ≠ 0` the following word has at least `rem` leading
zeros); a candidate failing the fully-free-words test advances the window by
the run length `entries`; but a candidate failing the leading-bits test
advances it to `s + (s + entries) + 1`, not by the run length.  The fuel
argument merely counts loop iterations (see `interScan_no_fuelOut`). -/
theorem C8_search_characterization :
    (∀ fuel bm entries rem memStart memEnd s0 s,
      interScan fuel bm entries rem memStart memEnd s0 = .found s →
        (∃ ws, getRange bm s (s + entries) = some ws ∧ ∀ w ∈ ws, w = 0)
        ∧ (rem ≠ 0 → ∃ nw, bm[s + entries]? = some nw ∧ rem ≤ leadingZeros64 nw))
    ∧ (∀ fuel bm entries rem memStart memEnd s ws,
      memStart + s < memEnd - entries - 1 →
      getRange bm s (s + entries) = some ws →
      ws.any (fun w => w ≠ 0) = true →
      interScan (fuel + 1) bm entries rem memStart memEnd s =
        interScan fuel bm entries rem memStart memEnd (s + entries))
    ∧ (∀ fuel bm entries rem memStart memEnd s ws nw,
      memStart + s < memEnd - entries - 1 →
      getRange bm s (s + entries) = some ws →
      ws.any (fun w => w ≠ 0) = false →
      rem ≠ 0 →
      bm[s + entries]? = some nw →
      leadingZeros64 nw < rem →
      interScan (fuel + 1) bm entries rem memStart memEnd s =
        interScan fuel bm entries rem memStart memEnd (s + (s + entries) + 1)) := by
  refine ⟨?_, ?_, ?_⟩
  · intro fuel
    induction fuel with
    | zero =>
      intro bm entries rem memStart memEnd s0 s h
      simp [interScan] at h
    | succ f ih =>
      intro bm entries rem memStart memEnd s0 s h
      rw [interScan] at h
      split at h
      · rename_i hcond
        cases hG : getRange bm s0 (s0 + entries) with
        | none => rw [hG] at h; simp at h
        | some ws0 =>
          rw [hG] at h
          simp only at h
          split at h
          · exact ih bm entries rem memStart memEnd (s0 + entries) s h
          · rename_i hA
            split at h
            · rename_i hrem
              cases hB : bm[s0 + entries]? with
              | none => rw [hB] at h; simp at h
              | some nw =>
                rw [hB] at h
                simp only at h
                split at h
                · exact ih bm entries rem memStart memEnd (s0 + (s0 + entries) + 1) s h
                · rename_i hlz
                  injection h with h1
                  subst h1
                  refine ⟨⟨ws0, hG, ?_⟩, fun _ => ⟨nw, hB, by omega⟩⟩
                  intro w hw
                  have := (List.any_eq_false.mp (Bool.not_eq_true _ ▸ hA)) w hw
                  simpa using this
            · rename_i hrem
              injection h with h1
              subst h1
              refine ⟨⟨ws0, hG, ?_⟩, fun hr => absurd hr (by simpa using hrem)⟩
              intro w hw
              have := (List.any_eq_false.mp (Bool.not_eq_true _ ▸ hA)) w hw
              simpa using this
      · simp at h
  · intro fuel bm entries rem memStart memEnd s ws hcond hG hA
    rw [interScan]
    rw [if_pos hcond, hG]
    simp only [hA]
    rw [if_pos trivial]
  · intro fuel bm entries rem memStart memEnd s ws nw hcond hG hA hrem hB hlz
    rw [interScan]
    rw [if_pos hcond, hG]
    simp only [hA, hB]
    rw [if_neg (by simp), if_pos hrem, if_pos hlz]

theorem C8_witness :
    interScan 100 [1, 0, 2 ^ 63, 0, 0, 0] 1 1 0 1572864 0 =
      interScan 99 [1, 0, 2 ^ 63, 0, 0, 0] 1 1 0 1572864 1 :=
  C8_search_characterization.2.1 99 [1, 0, 2 ^ 63, 0, 0, 0] 1 1 0 1572864 0 [1]
    (by decide) (by decide) (by decide)

/-! ### Claim C6: alignment and disjointness of single-frame allocations -/
theorem trailingOnesAux_le (fuel : Nat) : ∀ w, trailingOnesAux fuel w ≤ fuel := by
  induction fuel with
  | zero => intro w; simp [trailingOnesAux]
  | succ f ih =>
    intro w
    rw [trailingOnesAux]
    split
    · exact Nat.succ_le_succ (ih _)
    · omega

theorem trailingOnesAux_true (fuel : Nat) :
    ∀ w i, i < trailingOnesAux fuel w → Nat.testBit w i = true := by
  induction fuel with
  | zero => intro w i h; simp [trailingOnesAux] at h
  | succ f ih =>
    intro w i h
    rw [trailingOnesAux] at h
    split at h
    · rename_i hodd
      cases i with
      | zero => rw [Nat.testBit_zero]; simpa using hodd
      | succ j => rw [Nat.testBit_succ]; exact ih _ j (by omega)
    · omega

theorem trailingOnesAux_false (fuel : Nat) :
    ∀ w, trailingOnesAux fuel w < fuel → Nat.testBit w (trailingOnesAux fuel w) = false := by
  induction fuel with
  | zero => intro w h; omega
  | succ f ih =>
    intro w h
    rw [trailingOnesAux] at h ⊢
    split
    · rename_i hodd
      rw [Nat.testBit_succ]
      exact ih _ (by split at h <;> omega)
    · rename_i hodd
      rw [Nat.testBit_zero]
      simpa using hodd

theorem trailingOnes64_lt (w : Nat) (hw : w < 2 ^ 64) (hne : w ≠ U64_MAX) :
    trailingOnes64 w < 64 := by
  rcases Nat.lt_or_ge (trailingOnes64 w) 64 with h | h
  · exact h
  · exfalso
    have h64 : trailingOnes64 w = 64 := le_antisymm (trailingOnesAux_le 64 w) h
    apply hne
    apply Nat.eq_of_testBit_eq
    intro i
    rcases Nat.lt_or_ge i 64 with hi | hi
    · rw [trailingOnesAux_true 64 w i (by rw [show trailingOnesAux 64 w = trailingOnes64 w from rfl, h64]; omega)]
      rw [show U64_MAX = 2 ^ 64 - 1 from rfl, Nat.testBit_two_pow_sub_one]
      simp [hi]
    · rw [Nat.testBit_lt_two_pow (lt_of_lt_of_le hw (Nat.pow_le_pow_right (by norm_num) hi))]
      rw [show U64_MAX = 2 ^ 64 - 1 from rfl, Nat.testBit_two_pow_sub_one]
      simp
      omega

theorem trailingOnes64_bit_false (w : Nat) (h : trailingOnes64 w < 64) :
    Nat.testBit w (trailingOnes64 w) = false :=
  trailingOnesAux_false 64 w h

theorem findNotFull_spec (l : List Nat) : ∀ k i w, findNotFull l k = some (i, w) →
    k ≤ i ∧ l[i - k]? = some w ∧ w ≠ U64_MAX := by
  induction l with
  | nil => intro k i w h; simp [findNotFull] at h
  | cons x rest ih =>
    intro k i w h
    rw [findNotFull] at h
    split at h
    · rename_i hx
      simp only [Option.some.injEq, Prod.mk.injEq] at h
      obtain ⟨h1, h2⟩ := h
      subst h1
      subst h2
      exact ⟨le_rfl, by simp, hx⟩
    · rename_i hx
      obtain ⟨hk, hget, hne⟩ := ih (k + 1) i w h
      refine ⟨by omega, ?_, hne⟩
      have hik : i - k = (i - (k + 1)) + 1 := by omega
      rw [hik, List.getElem?_cons_succ]
      exact hget

theorem scanGroups_found (fuel : Nat) : ∀ bm n s0 s,
    scanGroups fuel bm n s0 = .found s →
    ∃ ws, getRange bm s (s + n) = some ws ∧ ∀ w ∈ ws, w = 0 := by
  induction fuel with
  | zero => intro bm n s0 s h; simp [scanGroups] at h
  | succ f ih =>
    intro bm n s0 s h
    rw [scanGroups] at h
    cases hG : getRange bm s0 (s0 + n) with
    | none => rw [hG] at h; simp at h
    | some ws0 =>
      rw [hG] at h
      simp only at h
      split at h
      · exact ih bm n (s0 + n) s h
      · rename_i hA
        injection h with h1
        subst h1
        refine ⟨ws0, hG, ?_⟩
        intro w hw
        have := (List.any_eq_false.mp (Bool.not_eq_true _ ▸ hA)) w hw
        simpa using this

theorem setRangeMax_length (n : Nat) : ∀ bm s, (setRangeMax bm s n).length = bm.length := by
  induction n with
  | zero => intro bm s; rw [setRangeMax]
  | succ m ih =>
    intro bm s
    rw [setRangeMax, ih, List.length_set]

theorem setRangeMax_lower (n : Nat) : ∀ bm s j, j < s →
    (setRangeMax bm s n)[j]? = bm[j]? := by
  induction n with
  | zero => intro bm s j h; rw [setRangeMax]
  | succ m ih =>
    intro bm s j h
    rw [setRangeMax, ih _ _ _ (by omega), List.getElem?_set_ne (by omega)]

theorem setRangeMax_getElem_in (n : Nat) : ∀ bm s j, s ≤ j → j < s + n → j < bm.length →
    (setRangeMax bm s n)[j]? = some U64_MAX := by
  induction n with
  | zero => intro bm s j h1 h2 h3; omega
  | succ m ih =>
    intro bm s j h1 h2 h3
    rw [setRangeMax]
    rcases Nat.eq_or_lt_of_le h1 with he | hlt
    · rw [setRangeMax_lower m _ _ _ (by omega)]
      rw [← he]
      exact List.getElem?_set_self (by omega)
    · exact ih _ (s + 1) j (by omega) (by omega) (by simpa using h3)

theorem getRange_bounds (bm : List Nat) (s e : Nat) (ws : List Nat)
    (h : getRange bm s e = some ws) : s ≤ e ∧ e ≤ bm.length := by
  simp only [getRange] at h
  split at h
  · rename_i hc
    exact hc
  · simp at h

theorem getRange_all_zero (bm : List Nat) (s e j : Nat) (ws : List Nat)
    (hG : getRange bm s e = some ws) (hall : ∀ w ∈ ws, w = 0) (h1 : s ≤ j) (h2 : j < e) :
    bm[j]? = some 0 := by
  simp only [getRange] at hG
  split at hG
  · rename_i hc
    injection hG with hws
    cases hB : bm[j]? with
    | none =>
      rw [List.getElem?_eq_none_iff] at hB
      omega
    | some x =>
      have hx : ws[j - s]? = some x := by
        rw [← hws]
        rw [List.getElem?_take]
        rw [if_pos (by omega)]
        rw [List.getElem?_drop]
        rw [show s + (j - s) = j by omega]
        exact hB
      rw [hall x (List.getElem?_mem hx)]
  · simp at hG

theorem allocSingle4k_ok (st : FrameState) (a : Nat) (st' : FrameState)
    (h : allocCode st 1 .kib4 = .ok a st') :
    ∃ i w, findNotFull st.bitmap 0 = some (i, w)
      ∧ a = st.memStart + i * BITMAP_ENTRY_SIZE_BYTES + trailingOnes64 w * FRAME_SIZE
      ∧ st' = { st with bitmap := st.bitmap.set i (w ||| (1 <<< trailingOnes64 w)) } := by
  rw [allocCode, if_pos rfl] at h
  simp only [allocSingle, allocSingle4k] at h
  split at h
  · rename_i i w hf
    split at h
    · injection h with h1 h2
      exact ⟨i, w, hf, h1.symm, h2.symm⟩
    · simp at h
  · simp at h

theorem allocMib2_ok (st : FrameState) (a : Nat) (st' : FrameState)
    (h : allocCode st 1 .mib2 = .ok a st') :
    ∃ s, scanGroups (st.bitmap.length + 2) st.bitmap 8
        (alignOffset st.memStart PageEntryLevel.mib2.size / (BITMAP_ENTRY_BITS * KIB)) = .found s
      ∧ a = st.memStart + s * BITMAP_ENTRY_SIZE_BYTES
      ∧ a % PageEntryLevel.mib2.size = 0
      ∧ st' = { st with bitmap := setRangeMax st.bitmap s 8 } := by
  rw [allocCode, if_pos rfl] at h
  simp only [allocSingle, allocContigous, allocContigousBig,
    show max (PageEntryLevel.mib2.size / FRAME_SIZE * 1 / BITMAP_ENTRY_BITS) 1 = 8 by decide] at h
  split at h
  · simp at h
  · simp at h
  · rename_i s hs
    split at h
    · rename_i hal
      injection h with h1 h2
      exact ⟨s, hs, h1.symm, h1 ▸ hal, h2.symm⟩
    · simp at h

/-- C6: single-frame allocations are aligned to their size class (for 4KiB
given the program invariant that `mem_start` is page aligned; for 2MiB by the
code's own alignment assert), and two consecutive successful single-frame
allocations of the same class return disjoint ranges. -/
theorem C6_alloc_single_aligned_disjoint :
    (∀ st a st', st.memStart % 4096 = 0 → allocCode st 1 .kib4 = .ok a st' → a % 4096 = 0)
    ∧ (∀ st a st', allocCode st 1 .mib2 = .ok a st' → a % 0x200000 = 0)
    ∧ (∀ st a1 st1 a2 st2, (∀ w ∈ st.bitmap, w < 2 ^ 64) →
        allocCode st 1 .kib4 = .ok a1 st1 → allocCode st1 1 .kib4 = .ok a2 st2 →
        a1 + 4096 ≤ a2 ∨ a2 + 4096 ≤ a1)
    ∧ (∀ st a1 st1 a2 st2,
        allocCode st 1 .mib2 = .ok a1 st1 → allocCode st1 1 .mib2 = .ok a2 st2 →
        a1 + 0x200000 ≤ a2 ∨ a2 + 0x200000 ≤ a1) := by
  refine ⟨?_, ?_, ?_, ?_⟩
  · intro st a st' hms h
    obtain ⟨i, w, hf, ha, hst⟩ := allocSingle4k_ok st a st' h
    subst ha
    simp only [BITMAP_ENTRY_SIZE_BYTES, BITMAP_ENTRY_BITS, FRAME_SIZE]
    omega
  · intro st a st' h
    obtain ⟨s, hs, ha, hal, hst⟩ := allocMib2_ok st a st' h
    have : PageEntryLevel.mib2.size = 0x200000 := by decide
    rw [this] at hal
    exact hal
  · intro st a1 st1 a2 st2 hwf h1 h2
    obtain ⟨i1, w1, hf1, ha1, hst1⟩ := allocSingle4k_ok st a1 st1 h1
    obtain ⟨i2, w2, hf2, ha2, hst2⟩ := allocSingle4k_ok st1 a2 st2 h2
    obtain ⟨-, hg1, hne1⟩ := findNotFull_spec st.bitmap 0 i1 w1 hf1
    obtain ⟨-, hg2, hne2⟩ := findNotFull_spec st1.bitmap 0 i2 w2 hf2
    simp only [Nat.sub_zero] at hg1 hg2
    have hw1lt : w1 < 2 ^ 64 := hwf w1 (List.getElem?_mem hg1)
    have hb1 : trailingOnes64 w1 < 64 := trailingOnes64_lt w1 hw1lt hne1
    have hpow : (1 <<< trailingOnes64 w1) = 2 ^ trailingOnes64 w1 := by
      rw [Nat.shiftLeft_eq, one_mul]
    have hw2lt : w2 < 2 ^ 64 := by
      rw [hst1] at hg2
      simp only at hg2
      rw [List.getElem?_set] at hg2
      split at hg2
      · split at hg2
        · injection hg2 with hx
          rw [← hx]
          exact Nat.or_lt_two_pow hw1lt
            (hpow ▸ Nat.pow_lt_pow_right (by norm_num) hb1)
        · simp at hg2
      · exact hwf w2 (List.getElem?_mem hg2)
    have hb2 : trailingOnes64 w2 < 64 := trailingOnes64_lt w2 hw2lt hne2
    have hms : st1.memStart = st.memStart := by rw [hst1]
    have hdiff : i1 * 64 + trailingOnes64 w1 ≠ i2 * 64 + trailingOnes64 w2 := by
      intro heq
      have hi : i1 = i2 := by omega
      have hb : trailingOnes64 w1 = trailingOnes64 w2 := by omega
      have hi1len : i1 < st.bitmap.length := by
        rcases List.getElem?_eq_some.mp hg1 with ⟨hlt, -⟩
        exact hlt
      have hw2 : w2 = w1 ||| (1 <<< trailingOnes64 w1) := by
        rw [hst1] at hg2
        simp only at hg2
        rw [← hi, List.getElem?_set, if_pos rfl, if_pos hi1len] at hg2
        injection hg2 with hx
        exact hx.symm
      have ht : Nat.testBit w2 (trailingOnes64 w2) = false := trailingOnes64_bit_false w2 hb2
      rw [← hb, hw2, Nat.testBit_lor] at ht
      have hbit : Nat.testBit (1 <<< trailingOnes64 w1) (trailingOnes64 w1) = true := by
        rw [Nat.testBit_shiftLeft]
        simp
      rw [hbit, Bool.or_true] at ht
      cases ht
    subst ha1
    subst ha2
    rw [hms]
    simp only [BITMAP_ENTRY_SIZE_BYTES, BITMAP_ENTRY_BITS, FRAME_SIZE]
    omega
  · intro st a1 st1 a2 st2 h1 h2
    obtain ⟨s1, hs1, ha1, hal1, hst1⟩ := allocMib2_ok st a1 st1 h1
    obtain ⟨s2, hs2, ha2, hal2, hst2⟩ := allocMib2_ok st1 a2 st2 h2
    obtain ⟨ws1, hg1, hz1⟩ := scanGroups_found _ _ _ _ _ hs1
    obtain ⟨ws2, hg2, hz2⟩ := scanGroups_found _ _ _ _ _ hs2
    have hbd1 := getRange_bounds _ _ _ _ hg1
    have hbd2 := getRange_bounds _ _ _ _ hg2
    have hms : st1.memStart = st.memStart := by rw [hst1]
    have hlen : st1.bitmap.length = st.bitmap.length := by
      rw [hst1]
      simp only
      exact setRangeMax_length 8 st.bitmap s1
    by_contra hcon
    push_neg at hcon
    have hsov : s1 < s2 + 8 ∧ s2 < s1 + 8 := by
      subst ha1
      subst ha2
      rw [hms] at hcon
      simp only [BITMAP_ENTRY_SIZE_BYTES, BITMAP_ENTRY_BITS, FRAME_SIZE] at hcon
      omega
    have hj1 : s1 ≤ max s1 s2 ∧ max s1 s2 < s1 + 8 := by omega
    have hj2 : s2 ≤ max s1 s2 ∧ max s1 s2 < s2 + 8 := by omega
    have hjlen : max s1 s2 < st.bitmap.length := by
      have := hbd2.2
      omega
    have hmax : st1.bitmap[max s1 s2]? = some U64_MAX := by
      rw [hst1]
      simp only
      exact setRangeMax_getElem_in 8 st.bitmap s1 (max s1 s2) hj1.1 hj1.2 hjlen
    have hzero : st1.bitmap[max s1 s2]? = some 0 :=
      getRange_all_zero st1.bitmap s2 (s2 + 8) (max s1 s2) ws2 hg2 hz2 hj2.1 hj2.2
    rw [hmax] at hzero
    injection hzero with hzz
    exact absurd hzz (by decide)

theorem C6_witness :
    allocCode ⟨List.replicate 16 0, 0, 16 * 262144⟩ 1 .mib2 =
      .ok 0 ⟨List.replicate 8 U64_MAX ++ List.replicate 8 0, 0, 16 * 262144⟩
    ∧ (0 : Nat) % 0x200000 = 0 :=
  ⟨by decide, C6_alloc_single_aligned_disjoint.2.1 ⟨List.replicate 16 0, 0, 16 * 262144⟩ 0
      ⟨List.replicate 8 U64_MAX ++ List.replicate 8 0, 0, 16 * 262144⟩ (by decide)⟩

/-! ### Kernel heap allocator (`alloc/mod.rs`, `alloc/list.rs`)

The free list is the sequence of `(start_addr, size)` node headers in link
order, head first; `add_free_region` pushes at the head and `find_region`
unlinks the first fitting node.  On the 64-bit target
`size_of::<Node>() = 16` and `align_of::<Node>() = 8`. -/

def NODE_SIZE : Nat := 16
def NODE_ALIGN : Nat := 8

structure HeapState where
  freeList : List (Nat × Nat)
deriving DecidableEq, Repr

/-- `align_up` from `memory/mod.rs`. -/
def alignUp (value align : Nat) : Nat :=
  if value % align = 0 then value else value + align - value % align

/-- `LinkedListAllocator::add_free_region`; `none` is an assert panic. -/
def addFreeRegion (st : HeapState) (addr size : Nat) : Option HeapState :=
  if alignUp addr NODE_ALIGN = addr ∧ NODE_SIZE ≤ size then
    some ⟨(addr, size) :: st.freeList⟩
  else none

/-- `LinkedListAllocator::alloc_from_region` (the `checked_add` cannot
overflow over `Nat`). -/
def allocFromRegion (nodeAddr nodeSize size align : Nat) : Option Nat :=
  let start := alignUp nodeAddr align
  let e := start + size
  if e > nodeAddr + nodeSize then none
  else if nodeAddr + nodeSize - e > 0 ∧ nodeAddr + nodeSize - e < NODE_SIZE then none
  else some start

/-- `LinkedListAllocator::find_region`: first fit; returns the removed node,
the allocation start, and the list with that node unlinked. -/
def findRegion : List (Nat × Nat) → Nat → Nat → Option ((Nat × Nat) × Nat × List (Nat × Nat))
  | [], _, _ => none
  | (a, s) :: rest, size, align =>
    match allocFromRegion a s size align with
    | some start => some ((a, s), start, rest)
    | none =>
      match findRegion rest size align with
      | some (node, start, rest2) => some (node, start, (a, s) :: rest2)
      | none => none

/-- `LinkedListAllocator::size_align(layout)`. -/
def sizeAlign (size align : Nat) : Nat × Nat :=
  let align2 := max align NODE_ALIGN
  let size2 := alignUp size align2
  (max size2 NODE_SIZE, align2)

inductive KallocResult where
  | ok : Nat → HeapState → KallocResult
  | okNull : HeapState → KallocResult
  | panicAssert : KallocResult
deriving DecidableEq, Repr

/-- `GlobalAlloc::alloc` for `KernelAllocator<LinkedListAllocator>`. -/
def heapAllocate (st : HeapState) (size align : Nat) : KallocResult :=
  let sa := sizeAlign size align
  match findRegion st.freeList sa.1 sa.2 with
  | none => .okNull st
  | some (node, start, rest) =>
    let e := start + sa.1
    let remaining := node.1 + node.2 - e
    if remaining > 0 then
      match addFreeRegion ⟨rest⟩ e remaining with
      | some st2 => .ok start st2
      | none => .panicAssert
    else .ok start ⟨rest⟩

inductive KdeallocResult where
  | ok : HeapState → KdeallocResult
  | panicAssert : KdeallocResult
deriving DecidableEq, Repr

/-- `GlobalAlloc::dealloc`. -/
def heapDeallocate (st : HeapState) (ptr size align : Nat) : KdeallocResult :=
  match addFreeRegion st ptr (sizeAlign size align).1 with
  | some st2 => .ok st2
  | none => .panicAssert

/-- `LinkedListAllocator::init`: seed one node spanning the region. -/
def heapInit (start size : Nat) : Option HeapState := addFreeRegion ⟨[]⟩ start size

/-- C9 (counterexample): on a fresh 8192-byte heap at 1024, `allocate(4096,8)`
splits off a tail node, and the following `deallocate` pushes the freed range
at the head without coalescing — the free list ends as two nodes, not one
node spanning the original region. -/
theorem C9_counterexample :
    heapInit 1024 8192 = some ⟨[(1024, 8192)]⟩
    ∧ heapAllocate ⟨[(1024, 8192)]⟩ 4096 8 = .ok 1024 ⟨[(5120, 4096)]⟩
    ∧ heapDeallocate ⟨[(5120, 4096)]⟩ 1024 4096 8 = .ok ⟨[(1024, 4096), (5120, 4096)]⟩
    ∧ (⟨[(1024, 4096), (5120, 4096)]⟩ : HeapState) ≠ ⟨[(1024, 8192)]⟩ :=
  ⟨by decide, by decide, by decide, by decide⟩

/-- C9 (amended): the round trip restores the original byte coverage but not
a single node: with a region of exactly 4096 bytes the list ends as that one
node, and with any larger workable region (size at least 4096 + 16) it ends
as the two uncoalesced nodes `[start, start+4096)` and `[start+4096, start+S)`,
which together span exactly the original region. -/
theorem C9_roundtrip_two_nodes (start S : Nat) (hal : start % 8 = 0) :
    (S = 4096 →
      heapAllocate ⟨[(start, S)]⟩ 4096 8 = .ok start ⟨[]⟩
      ∧ heapDeallocate ⟨[]⟩ start 4096 8 = .ok ⟨[(start, 4096)]⟩)
    ∧ (4096 + 16 ≤ S →
      heapAllocate ⟨[(start, S)]⟩ 4096 8 = .ok start ⟨[(start + 4096, S - 4096)]⟩
      ∧ heapDeallocate ⟨[(start + 4096, S - 4096)]⟩ start 4096 8 =
          .ok ⟨[(start, 4096), (start + 4096, S - 4096)]⟩
      ∧ start + 4096 + (S - 4096) = start + S) := by
  have hsa : sizeAlign 4096 8 = (4096, 8) := by decide
  have hup : alignUp start 8 = start := by
    rw [alignUp, if_pos hal]
  constructor
  · intro hS
    subst hS
    have hafr : allocFromRegion start 4096 4096 8 = some start := by
      simp only [allocFromRegion, NODE_ALIGN, hup, NODE_SIZE]
      rw [if_neg (by omega), if_neg (by omega)]
    constructor
    · simp only [heapAllocate, hsa, findRegion, NODE_ALIGN, hafr]
      rw [if_neg (by omega)]
    · simp only [heapDeallocate, hsa, addFreeRegion, NODE_ALIGN, NODE_SIZE, hup]
      rw [if_pos ⟨trivial, by omega⟩]
  · intro hS
    have hafr : allocFromRegion start S 4096 8 = some start := by
      simp only [allocFromRegion, NODE_ALIGN, hup, NODE_SIZE]
      rw [if_neg (by omega), if_neg (by omega)]
    have hup2 : alignUp (start + 4096) 8 = start + 4096 := by
      rw [alignUp, if_pos (by omega)]
    refine ⟨?_, ?_, by omega⟩
    · simp only [heapAllocate, hsa, findRegion, NODE_ALIGN, hafr]
      rw [if_pos (by omega)]
      simp only [addFreeRegion, NODE_ALIGN, NODE_SIZE, hup2]
      rw [if_pos ⟨trivial, by omega⟩]
      rw [show start + S - (start + 4096) = S - 4096 by omega]
    · simp only [heapDeallocate, hsa, addFreeRegion, NODE_ALIGN, NODE_SIZE, hup]
      rw [if_pos ⟨trivial, by omega⟩]

theorem C9_witness :
    (1024 : Nat) % 8 = 0
    ∧ heapAllocate ⟨[(1024, 8192)]⟩ 4096 8 = .ok 1024 ⟨[(1024 + 4096, 8192 - 4096)]⟩
    ∧ heapDeallocate ⟨[(1024 + 4096, 8192 - 4096)]⟩ 1024 4096 8 =
        .ok ⟨[(1024, 4096), (1024 + 4096, 8192 - 4096)]⟩
    ∧ 1024 + 4096 + (8192 - 4096) = 1024 + 8192 :=
  ⟨by decide, (C9_roundtrip_two_nodes 1024 8192 (by decide)).2 (by decide)⟩

end RiscyOS
